import Mathlib

/-!
Verification development for `scripts/plot_stats.py`.

The script loads circulation statistics (histograms and moments) from an HDF5
file and renders PDF curves and moment-scaling curves.  We give a shallow
embedding of its numeric core:

* 1-D datasets are `List ℚ`, 2-D datasets are `List (List ℚ)` (row major,
  indexed `[r][bin]` or `[r][p]` exactly as in the script).  Exact rationals
  stand for the script's floating-point values, so "within floating-point
  tolerance" statements become exact equalities.
* The quantities that the script only ever plots (the `logdiff` branch of
  `plot_moments`, which takes logarithms) live in `ℝ`.
* Python exceptions (`AssertionError` from `assert`, `IndexError` from
  out-of-range indexing, `UnboundLocalError` from the missing `else` branch
  in `plot_moments`) are modelled with `Except String`.
* NumPy in-place writes (`M[:] /= kappa**p`, which writes through the view
  `Mabs[:-1, :]` into the loaded array) are modelled by threading the array
  value through the loop and returning its final state.
-/

namespace PlotStats

/-! ### String constants appearing in the script -/

def sMoments : String := "Moments"

def sHistogramSuffix : String := "Histogram"

def sHistTag : String := "_hist"

def sSvg : String := ".svg"

def sH5 : String := ".h5"

def sEmpty : String := ""

def sIndexError : String := "IndexError"

def sAssertErr : String := "AssertionError"

def sUnbound : String := "UnboundLocalError"

/-! ### Data model

`params = dict(kappa=..., xi=..., nxi=...)` and the datasets that the script
reads from one `/Circulation/<Quantity>/{Histogram,Moments}` group and its
parent (`loop_sizes`).  All fields are the raw loaded arrays. -/

/-- Physical parameters loaded from `/ParamsGP`. -/
structure Params where
  kappa : ℚ
  xi : ℚ
  nxi : ℚ
deriving DecidableEq

/-- The datasets reachable from one quantity group: `loop_sizes` (on the
parent group), the `Histogram` subgroup's `hist`, `bin_edges`,
`total_samples`, and the `Moments` subgroup's `M_abs`, `p_abs`. -/
structure GroupData where
  loop_sizes : List ℚ
  hist : List (List ℚ)
  bin_edges : List ℚ
  total_samples : List ℚ
  M_abs : List (List ℚ)
  p_abs : List ℚ
deriving DecidableEq

/-! ### Python helpers -/

/-- Python `range(start, stop, step)` for a positive step. -/
def pyRange (start stop step : ℕ) : List ℕ :=
  List.range' start ((stop - start + step - 1) / step) step

/-- Python indexing `l[i]` for a non-negative index: raises `IndexError`
when out of bounds. -/
def pyIndex {α : Type} (l : List α) (i : ℕ) : Except String α :=
  match l.get? i with
  | some v => Except.ok v
  | none => Except.error sIndexError

/-- Python `s.endswith(suffix)`, computed on the underlying character
lists. -/
def pyEndsWith (s suffix : String) : Bool :=
  suffix.data.isSuffixOf s.data

/-- Bin centers `x = (bins[:-1] + bins[1:]) / 2` (line 32 / line 65). -/
def binCenters (bins : List ℚ) : List ℚ :=
  List.zipWith (fun a b => (a + b) / 2) bins.dropLast (bins.drop 1)

/-! ### `plot_pdf` (lines 28-53) -/

/-- The density of one histogram row, `pdf = hist[r, :] / (Ns * bin_size)`
(line 37 of `plot_pdf`). -/
def pdfRow (row : List ℚ) (Ns bin_size : ℚ) : List ℚ :=
  row.map (fun h => h / (Ns * bin_size))

/-- One curve emitted by `plot_pdf`: the printed integral `pdf.sum() * bin_size`,
the label `rs[r]`, and the plotted values (`none` models the `np.nan` written
over the central sample when `moment != 0`). -/
structure PdfRow where
  integral : ℚ
  label : ℚ
  ys : List (Option ℚ)
deriving DecidableEq

/-- The body of the `for r in range(1, Nr, 5)` loop of `plot_pdf`.  On a Python
exception the error carries the list of curves plotted before the abort. -/
def plotPdfRows (g : GroupData) (rs x : List ℚ) (bin_size : ℚ) (moment : ℕ) :
    List ℕ → Except (String × List PdfRow) (List PdfRow)
  | [] => Except.ok []
  | r :: rest =>
    let step : Except String PdfRow := do
      let Ns ← pyIndex g.total_samples r
      let row ← pyIndex g.hist r
      let pdf := pdfRow row Ns bin_size
      let integral := pdf.sum * bin_size
      let ys ←
        if moment ≠ 0 then do
          let pdf2 := List.zipWith (fun p v => p * v ^ moment) pdf x
          let n := pdf2.length / 2
          let xn ← pyIndex x n
          if |xn| < 1 / 10 ^ 8 then
            pure ((pdf2.map some).set n none)
          else
            Except.error sAssertErr
        else
          pure (pdf.map some)
      let lab ← pyIndex rs r
      pure (PdfRow.mk integral lab ys)
    match step with
    | Except.error e => Except.error (e, [])
    | Except.ok pr =>
      match plotPdfRows g rs x bin_size moment rest with
      | Except.error (e, prs) => Except.error (e, pr :: prs)
      | Except.ok prs => Except.ok (pr :: prs)

/-- Embedding of `plot_pdf` (lines 28-53): scales `loop_sizes` by `1/nxi` and
`bin_edges` by `1/kappa`, forms bin centers and the (assumed linear) bin size
`bins[1] - bins[0]`, and runs the row loop. -/
def plot_pdf (g : GroupData) (params : Params) (moment : ℕ) :
    Except (String × List PdfRow) (List PdfRow) :=
  let rs := g.loop_sizes.map (fun q => q / params.nxi)
  let Nr := rs.length
  let bins := g.bin_edges.map (fun q => q / params.kappa)
  let x := binCenters bins
  match bins.get? 1, bins.get? 0 with
  | some b1, some b0 => plotPdfRows g rs x (b1 - b0) moment (pyRange 1 Nr 5)
  | _, _ => Except.error (sIndexError, [])

/-! ### `load_moments` (lines 56-59) and `moments_from_histogram` (lines 62-81) -/

/-- Embedding of `load_moments`: a pass-through accessor returning
`(p_abs, M_abs)`. -/
def load_moments (g : GroupData) : List ℚ × List (List ℚ) :=
  (g.p_abs, g.M_abs)

/-- One entry of the recomputed moment array:
`np.sum(hist * np.abs(x)**p, axis=1)` restricted to one row (line 79). -/
def histMomentEntry (row x1 : List ℚ) (p : ℕ) : ℚ :=
  (List.zipWith (fun h v => h * |v| ^ p) row x1).sum

/-- The bin-center array of `moments_from_histogram` after the write
`x[n] = 0` that forces the central entry to exactly zero (line 70). -/
def centersZeroed (g : GroupData) : List ℚ :=
  let x := binCenters g.bin_edges
  x.set (x.length / 2) 0

/-- Embedding of `moments_from_histogram`: checks `abs(x[n]) < 1e-10` for the
central bin center (`assert`, line 69), forces that center to zero, and sums
`hist * |x| ** p` over bins for `ps = np.arange(1, 21)`. -/
def moments_from_histogram (g : GroupData) : Except String (List ℕ × List (List ℚ)) :=
  let hist := g.hist
  let bins := g.bin_edges
  let x := binCenters bins
  let n := x.length / 2
  match x.get? n with
  | none => Except.error sIndexError
  | some xn =>
    if |xn| < 1 / 10 ^ 10 then
      let x1 := x.set n 0
      let ps := (List.range 20).map (fun k => k + 1)
      let Mabs := hist.map (fun row => ps.map (fun p => histMomentEntry row x1 p))
      Except.ok (ps, Mabs)
    else
      Except.error sAssertErr

/-- Consistency of a synthetic input (the hypothesis of C1, following the
spec): the stored `M_abs` / `p_abs` of the `Moments` entity correspond to the
same histogram, i.e. whenever a stored exponent is the natural number `p`, the
stored moment column equals the absolute moments of the histogram computed
with the zero-forced bin centers. -/
def Consistent (g : GroupData) : Prop :=
  ∀ j, j < g.p_abs.length → ∀ p : ℕ, g.p_abs.getD j 0 = (p : ℚ) →
    ∀ r, r < g.hist.length →
      (g.M_abs.getD r []).getD j 0 = histMomentEntry (g.hist.getD r []) (centersZeroed g) p

/-! ### `output_filename` (lines 114-116) -/

/-- Python `str.replace` on character lists: replaces every non-overlapping
occurrence of `pat`, scanning left to right.  `fuel` bounds the recursion;
callers pass the length of the subject string, which suffices whenever the
pattern is nonempty. -/
def pyReplaceAux (pat rep : List Char) : ℕ → List Char → List Char
  | _, [] => []
  | 0, l => l
  | fuel + 1, c :: cs =>
    if pat.isPrefixOf (c :: cs) then
      rep ++ pyReplaceAux pat rep fuel (cs.drop (pat.length - 1))
    else
      c :: pyReplaceAux pat rep fuel cs

/-- Python `s.replace(pat, rep)` for a nonempty pattern. -/
def pyReplace (s pat rep : String) : String :=
  String.mk (pyReplaceAux pat.data rep.data s.data.length s.data)

/-- The module-level flag selecting the moment derivation strategy (line 11). -/
def MOMENTS_FROM_HISTOGRAM : Bool := false

/-- Embedding of `output_filename`: Python replace on `filein_h5` with the
pattern `.h5` and the replacement `suffix ++ .svg`, where `suffix` is `_hist`
when the histogram-based derivation flag is selected and empty otherwise.
The script reads the module-level flag; we pass it explicitly. -/
def output_filename (flag : Bool) (filein_h5 : String) : String :=
  let suffix := if flag then sHistTag else sEmpty
  pyReplace filein_h5 sH5 (suffix ++ sSvg)

/-- A file name in which the substring `.h5` occurs twice, the second
occurrence being the extension. -/
def fnameDouble : String := "a.h5.h5"

/-- What `output_filename` actually produces on `fnameDouble`. -/
def outDouble : String := "a.svg.svg"

/-- What replacing only the extension of `fnameDouble` would produce. -/
def specDouble : String := "a.h5.svg"

/-- The stem of the script's own input file name `tangle_1024.h5`. -/
def stemTangle : String := "tangle_1024"

/-! ### `plot_moments` (lines 84-109)

The `logdiff` branch takes logarithms, so this part of the embedding lives in
`ℝ` (hence `noncomputable`); the loaded rational data is cast on entry.  The
in-place NumPy write `M[:] /= kappa**p` (line 107) goes through the column
view `M = Mabs[:, i]` of the row view `Mabs = Mabs[:-1, :]` of the loaded
array, so it mutates all rows but the last of column `i` of the loaded array;
we model this by threading the view's value through the loop and returning
the final state of the loaded array alongside the curves. -/

/-- One curve plotted by `plot_moments`: the exponent label `p`, the
x-coordinates and the y-coordinates handed to `ax.plot`. -/
structure MomCurve where
  p : ℚ
  xs : List ℝ
  ys : List ℝ

/-- The discrete logarithmic derivative `(Ml[1:] - Ml[:-1]) / (rl[1:] - rl[:-1])`
of lines 104-106. -/
noncomputable def logDeriv (Ml rl : List ℝ) : List ℝ :=
  List.zipWith (fun a b => a / b)
    (List.zipWith (fun a b => a - b) (Ml.drop 1) Ml.dropLast)
    (List.zipWith (fun a b => a - b) (rl.drop 1) rl.dropLast)

/-- Effect of the in-place column write `M[:] /= kappa**p` on one row of the
view: entry `i` is mapped through `f`, all others kept. -/
noncomputable def colApply (i : ℕ) (f : ℝ → ℝ) (row : List ℝ) : List ℝ :=
  row.mapIdx (fun j v => if j = i then f v else v)

/-- The `for i in range(1, Np, 2)` loop of `plot_moments` (lines 96-109),
acting on the view `T = Mabs[:-1, :]`.  With `logdiff` the column is read and
its log-derivative plotted against midpoints; otherwise `M[:] /= kappa**p`
mutates the column in place and the mutated column is plotted against `rs`. -/
noncomputable def momLoop (kappa : ℝ) (rs rl : List ℝ) (ps : List ℚ) (logdiff : Bool) :
    List ℕ → List (List ℝ) → List (List ℝ) × List MomCurve
  | [], T => (T, [])
  | i :: rest, T =>
    let p := ps.getD i 0
    if logdiff then
      let M := T.map (fun row => row.getD i 0)
      let x := List.zipWith (fun a b => (a + b) / 2) (rs.drop 1) rs.dropLast
      let Ml := M.map Real.log
      let Md := logDeriv Ml rl
      let res := momLoop kappa rs rl ps logdiff rest T
      (res.1, MomCurve.mk p x Md :: res.2)
    else
      let T1 := T.map (colApply i (fun v => v / kappa ^ ((p : ℝ))))
      let M := T1.map (fun row => row.getD i 0)
      let res := momLoop kappa rs rl ps logdiff rest T1
      (res.1, MomCurve.mk p rs M :: res.2)

/-- The branch at the top of `plot_moments` (lines 86-89) selecting the moment
source by group-name suffix.  A group matching neither suffix leaves `ps` and
`Mabs` unassigned, so Python raises `UnboundLocalError` at their first use,
before anything is plotted. -/
noncomputable def loadMomentsFor (gname : String) (g : GroupData) :
    Except String (List ℚ × List (List ℝ)) :=
  if pyEndsWith gname sMoments then
    let pm := load_moments g
    Except.ok (pm.1, pm.2.map (fun row => row.map (fun q : ℚ => (q : ℝ))))
  else if pyEndsWith gname sHistogramSuffix then
    match moments_from_histogram g with
    | Except.ok pm =>
      Except.ok (pm.1.map (fun n => (n : ℚ)), pm.2.map (fun row => row.map (fun q : ℚ => (q : ℝ))))
    | Except.error e => Except.error e
  else
    Except.error sUnbound

/-- Embedding of `plot_moments` (lines 84-109): select the moment source,
drop the last loop size and the last moment row (lines 91-92), normalize
`rs` by `1/nxi`, precompute `rl = log rs`, and run the exponent loop.
Returns the final state of the loaded moment array (the mutated view
re-attached to the untouched last row) together with the plotted curves. -/
noncomputable def plot_moments (gname : String) (g : GroupData) (params : Params)
    (logdiff : Bool) : Except String (List (List ℝ) × List MomCurve) :=
  match loadMomentsFor gname g with
  | Except.error e => Except.error e
  | Except.ok pm =>
    let ps := pm.1
    let MabsR := pm.2
    let rs0 := g.loop_sizes.dropLast
    let T := MabsR.dropLast
    let Np := ps.length
    let rs := rs0.map (fun q : ℚ => (q : ℝ) / (params.nxi : ℝ))
    let kappa : ℝ := (params.kappa : ℝ)
    let rl := rs.map Real.log
    let res := momLoop kappa rs rl ps logdiff (pyRange 1 Np 2) T
    Except.ok (res.1 ++ MabsR.drop T.length, res.2)

/-- The loaded moment array an invocation of `plot_moments` starts from. -/
noncomputable def loadedArray (gname : String) (g : GroupData) : Except String (List (List ℝ)) :=
  (loadMomentsFor gname g).map Prod.snd

/-- A group with the last loop size and the last stored moment row replaced. -/
def replaceLastRow (g : GroupData) (a : ℚ) (arow : List ℚ) : GroupData :=
  { g with loop_sizes := g.loop_sizes.dropLast ++ [a], M_abs := g.M_abs.dropLast ++ [arow] }

/-! ### Concrete inputs used by witnesses -/

/-- Parameters with `kappa = 2`, used to exhibit the in-place division. -/
def paramsC7 : Params := ⟨2, 1, 1⟩

/-- All-ones parameters. -/
def paramsOne : Params := ⟨1, 1, 1⟩

/-- A `Moments` entity with two loop sizes and all-ones moments: feeding it to
`plot_moments` with `logdiff = false` divides the first row of column 1 by
`kappa ^ p`, mutating the loaded array. -/
def gC7 : GroupData := ⟨[1, 1], [], [], [], [[1, 1], [1, 1]], [1, 1]⟩

/-- A `Moments` entity with two loop sizes and `p_abs = [1, 2]`. -/
def gC9 : GroupData := ⟨[1, 2], [], [], [], [[1, 1], [2, 2]], [1, 2]⟩

/-- A single-loop-size histogram whose central bin center is `3/2`, far from
zero: the row loop `range(1, 1, 5)` of `plot_pdf` is empty, so its centering
assertion is never reached. -/
def gC5bad : GroupData := ⟨[1], [[1, 1, 1]], [0, 1, 2, 3], [3], [], []⟩

/-- A two-loop-size histogram with the same ill-centered bins, on which
`plot_pdf` with a nonzero moment does abort. -/
def gC5a : GroupData := ⟨[1, 1], [[1, 1, 1], [1, 1, 1]], [0, 1, 2, 3], [3, 3], [], []⟩

/-- The exponent list `np.arange(1, 21, step=1)` of `moments_from_histogram`. -/
def psTwenty : List ℕ := (List.range 20).map (fun k => k + 1)

/-- A synthetic histogram: one row `[1, 2, 3]`, bin edges symmetric about
zero with centers `[-1, 0, 1]`. -/
def gC8 : GroupData := ⟨[], [[1, 2, 3]], [-(3 / 2), -(1 / 2), 1 / 2, 3 / 2], [], [], []⟩

/-- The same synthetic histogram together with a consistent `Moments` entity:
`p_abs = [2]` and `M_abs = [[4]]`, since `1·|-1|² + 2·|0|² + 3·|1|² = 4`. -/
def gC1 : GroupData := ⟨[], [[1, 2, 3]], [-(3 / 2), -(1 / 2), 1 / 2, 3 / 2], [], [[4]], [2]⟩

/-- The moment table `moments_from_histogram` computes for a group. -/
def histMoments (g : GroupData) : List (List ℚ) :=
  g.hist.map (fun row => psTwenty.map (fun p => histMomentEntry row (centersZeroed g) p))

end PlotStats

namespace PlotStats

/-! ### Theorems -/

/-- Helper: the sum of a mapped division is the division of the sum. -/
theorem sum_map_div (l : List ℚ) (c : ℚ) :
    (l.map (fun h => h / c)).sum = l.sum / c := by
  induction l with
  | nil => simp
  | cons a t ih => simp [ih, add_div]

/-- C3: if every sample of a histogram row falls inside the bin range (the
row's counts sum to `total_samples[r] > 0`) and the bin size is positive, the
PDF computed by `plot_pdf` (line 37, `pdfRow`) has
`pdf.sum() * bin_size = 1` exactly. -/
theorem pdf_integral_eq_one (row : List ℚ) (Ns bs : ℚ)
    (hsum : row.sum = Ns) (hNs : 0 < Ns) (hbs : 0 < bs) :
    (pdfRow row Ns bs).sum * bs = 1 := by
  have hNs' : Ns ≠ 0 := ne_of_gt hNs
  have hbs' : bs ≠ 0 := ne_of_gt hbs
  unfold pdfRow
  rw [sum_map_div, hsum]
  field_simp

/-- Witness for C3 at `row = [1, 2, 1]`, `Ns = 4`, `bin_size = 1/2`. -/
theorem pdf_integral_eq_one_witness :
    ([(1 : ℚ), 2, 1].sum = 4 ∧ (0 : ℚ) < 4 ∧ (0 : ℚ) < 1 / 2) ∧
      (pdfRow [(1 : ℚ), 2, 1] 4 (1 / 2)).sum * (1 / 2) = 1 :=
  ⟨⟨by norm_num, by norm_num, by norm_num⟩,
    pdf_integral_eq_one [(1 : ℚ), 2, 1] 4 (1 / 2) (by norm_num) (by norm_num) (by norm_num)⟩

/-- Helper: entrywise value of `pdfRow`. -/
theorem pdfRow_getD (row : List ℚ) (Ns bs : ℚ) (j : ℕ) (hj : j < row.length) :
    (pdfRow row Ns bs).getD j 0 = row.getD j 0 / (Ns * bs) := by
  unfold pdfRow
  rw [List.getD_eq_getElem?_getD, List.getD_eq_getElem?_getD,
    List.getElem?_map, List.getElem?_eq_getElem hj]
  rfl

/-- C4: for a histogram row whose only occupied bin is the central bin
(index `row.length / 2`) with count `N`, and `total_samples = N > 0`, the
density computed by `plot_pdf` (line 37, `pdfRow`; moment exponent 0 so no
further reweighting happens) is `1 / bin_size` at the central bin and `0`
at every other bin. -/
theorem pdf_single_bin (row : List ℚ) (N bs : ℚ) (n : ℕ)
    (hn : n = row.length / 2) (hnlt : n < row.length)
    (hcenter : row.getD n 0 = N)
    (hzero : ∀ j, j < row.length → j ≠ n → row.getD j 0 = 0)
    (hN : 0 < N) (hbs : 0 < bs) :
    (pdfRow row N bs).getD n 0 = 1 / bs ∧
      ∀ j, j < row.length → j ≠ n → (pdfRow row N bs).getD j 0 = 0 := by
  have hN' : N ≠ 0 := ne_of_gt hN
  have hbs' : bs ≠ 0 := ne_of_gt hbs
  constructor
  · rw [pdfRow_getD row N bs n hnlt, hcenter]
    field_simp
  · intro j hj hne
    rw [pdfRow_getD row N bs j hj, hzero j hj hne]
    simp

/-- Witness for C4 at `row = [0, 2, 0]`, `N = 2`, `bin_size = 1/3`. -/
theorem pdf_single_bin_witness :
    ((1 : ℕ) = [(0 : ℚ), 2, 0].length / 2 ∧ (1 : ℕ) < [(0 : ℚ), 2, 0].length ∧
        [(0 : ℚ), 2, 0].getD 1 0 = 2 ∧ (0 : ℚ) < 2 ∧ (0 : ℚ) < 1 / 3) ∧
      (pdfRow [(0 : ℚ), 2, 0] 2 (1 / 3)).getD 1 0 = 1 / (1 / 3) ∧
        ∀ j, j < [(0 : ℚ), 2, 0].length → j ≠ 1 →
          (pdfRow [(0 : ℚ), 2, 0] 2 (1 / 3)).getD j 0 = 0 :=
  ⟨⟨by decide, by decide, rfl, by norm_num, by norm_num⟩,
    pdf_single_bin [(0 : ℚ), 2, 0] 2 (1 / 3) 1 (by decide) (by decide) rfl
      (by decide) (by norm_num) (by norm_num)⟩

/-- Helper: `getD` of a mapped list at an in-bounds index. -/
theorem getD_map_of_lt {α β : Type} (f : α → β) (l : List α) (i : ℕ) (d : β) (d' : α)
    (h : i < l.length) : (l.map f).getD i d = f (l.getD i d') := by
  rw [List.getD_eq_getElem?_getD, List.getElem?_map, List.getElem?_eq_getElem h,
    List.getD_eq_getElem?_getD, List.getElem?_eq_getElem h]
  rfl

/-- Helper: a zipped-product sum as an indexed finite sum. -/
theorem sum_zipWith_range (f : ℚ → ℚ → ℚ) :
    ∀ (l1 l2 : List ℚ), l1.length = l2.length →
      (List.zipWith f l1 l2).sum = ∑ b ∈ Finset.range l1.length, f (l1.getD b 0) (l2.getD b 0) := by
  intro l1
  induction l1 with
  | nil => intro l2 _; simp
  | cons a t ih =>
    intro l2 h
    cases l2 with
    | nil => simp at h
    | cons b t2 =>
      simp only [List.length_cons] at h
      have h' : t.length = t2.length := by omega
      simp only [List.zipWith_cons_cons, List.sum_cons, List.length_cons,
        Finset.sum_range_succ', List.getD_cons_succ, List.getD_cons_zero]
      rw [ih t2 h']
      ring

/-- Helper: `moments_from_histogram` succeeds and returns
`(psTwenty, histMoments g)` whenever the central bin center exists and is
within `1e-10` of zero. -/
theorem moments_from_histogram_eval (g : GroupData)
    (hn : (binCenters g.bin_edges).length / 2 < (binCenters g.bin_edges).length)
    (hx : |(binCenters g.bin_edges).getD ((binCenters g.bin_edges).length / 2) 0| <
      1 / 10 ^ 10) :
    moments_from_histogram g = Except.ok (psTwenty, histMoments g) := by
  simp only [moments_from_histogram]
  have hget : (binCenters g.bin_edges).get? ((binCenters g.bin_edges).length / 2) =
      some ((binCenters g.bin_edges).getD ((binCenters g.bin_edges).length / 2) 0) := by
    rw [List.get?_eq_getElem?, List.getElem?_eq_getElem hn, List.getD_eq_getElem?_getD,
      List.getElem?_eq_getElem hn]
    rfl
  rw [hget]
  simp only [if_pos hx]
  rfl

/-- Helper: inversion of a successful `moments_from_histogram` run. -/
theorem moments_from_histogram_ok (g : GroupData) (PM : List ℕ × List (List ℚ))
    (hok : moments_from_histogram g = Except.ok PM) :
    PM.1 = psTwenty ∧ PM.2 = histMoments g := by
  simp only [moments_from_histogram] at hok
  cases hget : (binCenters g.bin_edges).get? ((binCenters g.bin_edges).length / 2) with
  | none => rw [hget] at hok; cases hok
  | some xn =>
    rw [hget] at hok
    by_cases hlt : |xn| < 1 / 10 ^ 10
    · simp only [if_pos hlt] at hok
      have h2 := (Except.ok.injEq _ _).mp hok
      constructor
      · rw [← h2]
        rfl
      · rw [← h2]
        rfl
    · simp only [if_neg hlt] at hok
      exact absurd hok (by simp)

/-- C8: a successful `moments_from_histogram` returns the exponent sequence
`1, 2, ..., 20` and, for rectangular input, a moments array whose entry at
row `r` and exponent index `i` is `∑ bins, hist[r, b] * |x[b]| ^ (i + 1)`,
with `x` the bin-center array whose central entry is forced to exactly `0`. -/
theorem moments_from_histogram_entries (g : GroupData) (PM : List ℕ × List (List ℚ))
    (hok : moments_from_histogram g = Except.ok PM)
    (hrect : ∀ row ∈ g.hist, row.length = (binCenters g.bin_edges).length) :
    (PM.1.length = 20 ∧ ∀ i, i < 20 → PM.1.getD i 0 = i + 1) ∧
      ∀ r, r < g.hist.length → ∀ i, i < 20 →
        (PM.2.getD r []).getD i 0 =
          ∑ b ∈ Finset.range (centersZeroed g).length,
            (g.hist.getD r []).getD b 0 * |(centersZeroed g).getD b 0| ^ (i + 1) := by
  obtain ⟨hps, hM⟩ := moments_from_histogram_ok g PM hok
  constructor
  · rw [hps]
    exact ⟨by decide, by decide⟩
  · intro r hr i hi
    rw [hM]
    unfold histMoments
    rw [getD_map_of_lt _ _ _ _ [] hr]
    have hips : i < psTwenty.length := by
      have : psTwenty.length = 20 := by decide
      omega
    rw [getD_map_of_lt _ _ _ _ 0 hips]
    have hpsi : psTwenty.getD i 0 = i + 1 := (by decide : ∀ k, k < 20 → psTwenty.getD k 0 = k + 1) i hi
    rw [hpsi]
    have hmem : g.hist.getD r [] ∈ g.hist := by
      rw [List.getD_eq_getElem?_getD, List.getElem?_eq_getElem hr]
      exact List.getElem_mem hr
    have hrow : (g.hist.getD r []).length = (centersZeroed g).length := by
      rw [hrect _ hmem]
      unfold centersZeroed
      rw [List.length_set]
    unfold histMomentEntry
    rw [sum_zipWith_range _ _ _ hrow, hrow]

/-- Witness for C8 on the synthetic histogram `gC8`. -/
theorem moments_from_histogram_entries_witness :
    (moments_from_histogram gC8 = Except.ok (psTwenty, histMoments gC8) ∧
        ∀ row ∈ gC8.hist, row.length = (binCenters gC8.bin_edges).length) ∧
      (((psTwenty, histMoments gC8).1.length = 20 ∧
          ∀ i, i < 20 → (psTwenty, histMoments gC8).1.getD i 0 = i + 1) ∧
        ∀ r, r < gC8.hist.length → ∀ i, i < 20 →
          ((psTwenty, histMoments gC8).2.getD r []).getD i 0 =
            ∑ b ∈ Finset.range (centersZeroed gC8).length,
              (gC8.hist.getD r []).getD b 0 * |(centersZeroed gC8).getD b 0| ^ (i + 1)) := by
  have hok : moments_from_histogram gC8 = Except.ok (psTwenty, histMoments gC8) :=
    moments_from_histogram_eval gC8 (by decide)
      (by norm_num [gC8, binCenters, List.getD])
  have hrect : ∀ row ∈ gC8.hist, row.length = (binCenters gC8.bin_edges).length := by
    intro row hr
    have : row = [1, 2, 3] := by simpa [gC8] using hr
    rw [this]
    decide
  exact ⟨⟨hok, hrect⟩, moments_from_histogram_entries gC8 (psTwenty, histMoments gC8) hok hrect⟩

/-- C1: for a consistent synthetic input (stored `M_abs` / `p_abs` computed
from the same histogram), the moments recomputed by `moments_from_histogram`
agree exactly with the moments returned by `load_moments` at every row and at
every exponent value present in both exponent sequences. -/
theorem moments_refine_load (g : GroupData) (PM : List ℕ × List (List ℚ))
    (hcons : Consistent g)
    (hok : moments_from_histogram g = Except.ok PM) :
    ∀ i, i < PM.1.length → ∀ j, j < (load_moments g).1.length →
      (load_moments g).1.getD j 0 = (PM.1.getD i 0 : ℚ) →
      ∀ r, r < g.hist.length →
        (PM.2.getD r []).getD i 0 = ((load_moments g).2.getD r []).getD j 0 := by
  obtain ⟨hps, hM⟩ := moments_from_histogram_ok g PM hok
  intro i hi j hj hshared r hr
  have hips : i < psTwenty.length := by rw [← hps]; exact hi
  rw [hM]
  unfold histMoments
  rw [getD_map_of_lt _ _ _ _ [] hr, getD_map_of_lt _ _ _ _ 0 hips]
  have := hcons j hj (psTwenty.getD i 0) (by rw [← hps] at hips ⊢; exact hshared) r hr
  exact this.symm

/-- Witness for C1 on `gC1`, whose stored `p_abs = [2]`, `M_abs = [[4]]` match
the histogram `[1, 2, 3]` over centers `[-1, 0, 1]`; the shared exponent is
`2 = psTwenty[1]`. -/
theorem moments_refine_load_witness :
    (Consistent gC1 ∧ moments_from_histogram gC1 = Except.ok (psTwenty, histMoments gC1)) ∧
      ((psTwenty, histMoments gC1).2.getD 0 []).getD 1 0 =
        ((load_moments gC1).2.getD 0 []).getD 0 0 := by
  have hcons : Consistent gC1 := by
    intro j hj p hp r hr
    have hj0 : j = 0 := by
      have : gC1.p_abs.length = 1 := by decide
      omega
    have hr0 : r = 0 := by
      have : gC1.hist.length = 1 := by decide
      omega
    subst hj0; subst hr0
    have hp2 : p = 2 := by
      have h2 : ((2 : ℕ) : ℚ) = (p : ℚ) := by
        norm_num [gC1] at hp
        exact_mod_cast hp
      exact_mod_cast h2.symm
    subst hp2
    norm_num [gC1, histMomentEntry, centersZeroed, binCenters, List.getD]
  have hok : moments_from_histogram gC1 = Except.ok (psTwenty, histMoments gC1) :=
    moments_from_histogram_eval gC1 (by decide)
      (by norm_num [gC1, binCenters, List.getD])
  refine ⟨⟨hcons, hok⟩, ?_⟩
  exact moments_refine_load gC1 (psTwenty, histMoments gC1) hcons hok 1 (by decide) 0
    (by decide) (by norm_num [load_moments, gC1, psTwenty, List.getD, List.range_succ]) 0
    (by decide)

/-- Helper: `isPrefixOf` is reflexive. -/
theorem isPrefixOf_self {α : Type} [BEq α] [LawfulBEq α] :
    ∀ l : List α, l.isPrefixOf l = true := by
  intro l
  induction l with
  | nil => rfl
  | cons a t ih => simp [List.isPrefixOf, ih]

/-- Helper: when the pattern occurs nowhere before the final position,
`pyReplaceAux` on `s ++ pat` replaces exactly the trailing occurrence. -/
theorem pyReplaceAux_concat (pat rep : List Char) (hpat : pat ≠ []) :
    ∀ (s : List Char) (fuel : ℕ), (s ++ pat).length ≤ fuel →
      (∀ i, i < s.length → pat.isPrefixOf ((s ++ pat).drop i) = false) →
      pyReplaceAux pat rep fuel (s ++ pat) = s ++ rep := by
  intro s
  induction s with
  | nil =>
    intro fuel hfuel _
    cases hp : pat with
    | nil => exact absurd hp hpat
    | cons c cs =>
      subst hp
      simp only [List.nil_append, List.length_cons] at hfuel ⊢
      cases fuel with
      | zero => omega
      | succ f =>
        have hstep : pyReplaceAux (c :: cs) rep (f + 1) (c :: cs) =
            rep ++ pyReplaceAux (c :: cs) rep f (cs.drop ((c :: cs).length - 1)) := by
          rw [pyReplaceAux]
          rw [if_pos (isPrefixOf_self (c :: cs))]
        rw [hstep]
        have hlen : (c :: cs).length - 1 = cs.length := by simp
        rw [hlen, List.drop_length]
        cases f with
        | zero => simp [pyReplaceAux]
        | succ f2 => simp [pyReplaceAux]
  | cons c s1 ih =>
    intro fuel hfuel hno
    cases fuel with
    | zero => simp at hfuel
    | succ f =>
      have h0 : pat.isPrefixOf (c :: (s1 ++ pat)) = false := by
        have h1 := hno 0 (by simp)
        simpa using h1
      have hstep : pyReplaceAux pat rep (f + 1) ((c :: s1) ++ pat) =
          c :: pyReplaceAux pat rep f (s1 ++ pat) := by
        rw [List.cons_append, pyReplaceAux]
        rw [if_neg (by simp [h0])]
      rw [hstep, List.cons_append]
      rw [ih f (by simp at hfuel ⊢; omega)
        (by intro i hi
            have h2 := hno (i + 1) (by simp; omega)
            simpa using h2)]

/-- C6 counterexample: on the file name `a.h5.h5`, whose extension is `.h5`,
the script's `output_filename` (Python `str.replace`) rewrites *both*
occurrences of `.h5`, producing `a.svg.svg` instead of the
extension-replacement result `a.h5.svg` the claim describes. -/
theorem output_filename_cex :
    output_filename false fnameDouble = outDouble ∧ outDouble ≠ specDouble := by
  constructor
  · decide
  · decide

/-- C6 amended: `output_filename` replaces every occurrence of the substring
`.h5` by `suffix ++ ".svg"` (suffix `_hist` exactly when the histogram flag is
selected).  For every file name in which `.h5` occurs only once, as the
trailing extension, this coincides with replacing the extension. -/
theorem output_filename_spec (flag : Bool) (stem : String)
    (hno : ∀ i, i < stem.data.length →
      sH5.data.isPrefixOf ((stem.data ++ sH5.data).drop i) = false) :
    output_filename flag (stem ++ sH5) =
      stem ++ (if flag then sHistTag else sEmpty) ++ sSvg := by
  simp only [output_filename, pyReplace, String.data_append]
  rw [pyReplaceAux_concat sH5.data ((if flag then sHistTag else sEmpty).data ++ sSvg.data)
    (by decide) stem.data (stem.data ++ sH5.data).length (le_refl _) hno]
  apply String.ext
  simp only [String.data_append]
  cases flag <;> simp [sHistTag, sEmpty, sSvg]

/-- Witness for C6 (amended) at the stem `tangle_1024` (the script's own
input name) and both flag values. -/
theorem output_filename_spec_witness :
    ((∀ i, i < stemTangle.data.length →
        sH5.data.isPrefixOf ((stemTangle.data ++ sH5.data).drop i) = false) ∧
      output_filename false (stemTangle ++ sH5) =
        stemTangle ++ (if false then sHistTag else sEmpty) ++ sSvg) ∧
      output_filename true (stemTangle ++ sH5) =
        stemTangle ++ (if true then sHistTag else sEmpty) ++ sSvg := by
  have hno : ∀ i, i < stemTangle.data.length →
      sH5.data.isPrefixOf ((stemTangle.data ++ sH5.data).drop i) = false := by
    decide
  exact ⟨⟨hno, output_filename_spec false stemTangle hno⟩,
    output_filename_spec true stemTangle hno⟩


/-- Helper: `getD` of a `zipWith` at an in-bounds index. -/
theorem getD_zipWith_of_lt {α β γ : Type} (f : α → β → γ) (l1 : List α) (l2 : List β)
    (k : ℕ) (h1 : k < l1.length) (h2 : k < l2.length) (d1 : α) (d2 : β) (d : γ) :
    (List.zipWith f l1 l2).getD k d = f (l1.getD k d1) (l2.getD k d2) := by
  have hk : k < (List.zipWith f l1 l2).length := by
    rw [List.length_zipWith]
    omega
  rw [List.getD_eq_getElem?_getD, List.getElem?_eq_getElem hk,
    List.getD_eq_getElem?_getD, List.getElem?_eq_getElem h1,
    List.getD_eq_getElem?_getD, List.getElem?_eq_getElem h2]
  simp [List.getElem_zipWith]

/-- Helper: `getD` after `drop 1` shifts the index by one. -/
theorem getD_drop_one {α : Type} (l : List α) (k : ℕ) (h : k + 1 < l.length) (d : α) :
    (l.drop 1).getD k d = l.getD (k + 1) d := by
  have hk : k < (l.drop 1).length := by
    rw [List.length_drop]
    omega
  rw [List.getD_eq_getElem?_getD, List.getElem?_eq_getElem hk,
    List.getD_eq_getElem?_getD, List.getElem?_eq_getElem h]
  simp only [List.getElem_drop, Option.getD_some]
  congr 1
  omega

/-- Helper: `getD` after `dropLast` at an interior index. -/
theorem getD_dropLast_of_lt {α : Type} (l : List α) (k : ℕ) (h : k < l.length - 1) (d : α) :
    l.dropLast.getD k d = l.getD k d := by
  have hk : k < l.dropLast.length := by
    rw [List.length_dropLast]
    omega
  rw [List.getD_eq_getElem?_getD, List.getElem?_eq_getElem hk,
    List.getD_eq_getElem?_getD, List.getElem?_eq_getElem (by omega : k < l.length)]
  simp [List.getElem_dropLast]

/-- C2: for every strictly increasing positive loop-size sequence `rs` and
every exponent `α`, if the moment column is the exact power law
`M[r] = rs[r] ^ α`, then the discrete logarithmic derivative computed by
`plot_moments` with `logdiff = true` (`logDeriv`, lines 104-106) equals `α`
at every midpoint, independently of rescaling `rs` by any `c > 0` (such as
the script's `1 / nxi` normalization). -/
theorem logDeriv_recovers_exponent (rs M : List ℝ) (α c : ℝ) (hc : 0 < c)
    (hlen : M.length = rs.length)
    (hpos : ∀ i, i < rs.length → 0 < rs.getD i 0)
    (hmono : ∀ i, i + 1 < rs.length → rs.getD i 0 < rs.getD (i + 1) 0)
    (hM : ∀ i, i < rs.length → M.getD i 0 = rs.getD i 0 ^ α) :
    ∀ k, k + 1 < rs.length →
      (logDeriv (M.map Real.log) ((rs.map (fun t => c * t)).map Real.log)).getD k 0 = α := by
  intro k hk
  have hMl1 : (M.map Real.log).getD (k + 1) 0 = α * Real.log (rs.getD (k + 1) 0) := by
    rw [getD_map_of_lt Real.log M (k + 1) 0 0 (by rw [hlen]; omega), hM (k + 1) hk]
    exact Real.log_rpow (hpos (k + 1) hk) α
  have hMl0 : (M.map Real.log).getD k 0 = α * Real.log (rs.getD k 0) := by
    rw [getD_map_of_lt Real.log M k 0 0 (by rw [hlen]; omega), hM k (by omega)]
    exact Real.log_rpow (hpos k (by omega)) α
  have hclog : ∀ j, j < rs.length →
      ((rs.map (fun t => c * t)).map Real.log).getD j 0 =
        Real.log c + Real.log (rs.getD j 0) := by
    intro j hj
    rw [getD_map_of_lt Real.log _ j 0 0 (by simp [hj]),
      getD_map_of_lt (fun t => c * t) rs j 0 0 hj]
    exact Real.log_mul (ne_of_gt hc) (ne_of_gt (hpos j hj))
  have hDne : Real.log (rs.getD (k + 1) 0) - Real.log (rs.getD k 0) ≠ 0 :=
    sub_ne_zero.mpr
      (ne_of_gt (Real.log_lt_log (hpos k (by omega)) (hmono k hk)))
  unfold logDeriv
  rw [getD_zipWith_of_lt (fun a b => a / b) _ _ k
    (by simp [hlen]; omega) (by simp; omega) 0 0 0]
  rw [getD_zipWith_of_lt (fun a b => a - b) _ _ k
    (by simp [hlen]; omega) (by simp [hlen]; omega) 0 0 0]
  rw [getD_zipWith_of_lt (fun a b => a - b) _ _ k
    (by simp; omega) (by simp; omega) 0 0 0]
  rw [getD_drop_one (M.map Real.log) k (by simp [hlen]; omega) 0,
    getD_dropLast_of_lt (M.map Real.log) k (by simp [hlen]; omega) 0]
  rw [getD_drop_one ((rs.map (fun t => c * t)).map Real.log) k (by simp; omega) 0,
    getD_dropLast_of_lt ((rs.map (fun t => c * t)).map Real.log) k (by simp; omega) 0]
  rw [hMl1, hMl0, hclog (k + 1) hk, hclog k (by omega)]
  have hcancel : Real.log c + Real.log (rs.getD (k + 1) 0) -
      (Real.log c + Real.log (rs.getD k 0)) =
      Real.log (rs.getD (k + 1) 0) - Real.log (rs.getD k 0) := by
    ring
  rw [hcancel, ← mul_sub, mul_div_assoc, div_self hDne, mul_one]

/-- Witness for C2 at `rs = [1, 2]`, `M = [1, 2]`, `α = 1`, `c = 1`. -/
theorem logDeriv_recovers_exponent_witness :
    ((0 : ℝ) < 1 ∧ [(1 : ℝ), 2].length = [(1 : ℝ), 2].length ∧
        (∀ i, i < [(1 : ℝ), 2].length → (0 : ℝ) < [(1 : ℝ), 2].getD i 0) ∧
        (∀ i, i + 1 < [(1 : ℝ), 2].length →
          [(1 : ℝ), 2].getD i 0 < [(1 : ℝ), 2].getD (i + 1) 0) ∧
        (∀ i, i < [(1 : ℝ), 2].length →
          [(1 : ℝ), 2].getD i 0 = [(1 : ℝ), 2].getD i 0 ^ (1 : ℝ))) ∧
      (logDeriv ([(1 : ℝ), 2].map Real.log)
          (([(1 : ℝ), 2].map (fun t => 1 * t)).map Real.log)).getD 0 0 = 1 := by
  have hpos : ∀ i, i < [(1 : ℝ), 2].length → (0 : ℝ) < [(1 : ℝ), 2].getD i 0 := by
    intro i hi
    simp only [List.length_cons, List.length_nil] at hi
    interval_cases i <;> norm_num
  have hmono : ∀ i, i + 1 < [(1 : ℝ), 2].length →
      [(1 : ℝ), 2].getD i 0 < [(1 : ℝ), 2].getD (i + 1) 0 := by
    intro i hi
    simp only [List.length_cons, List.length_nil] at hi
    have hi0 : i = 0 := by omega
    subst hi0
    norm_num
  have hM : ∀ i, i < [(1 : ℝ), 2].length →
      [(1 : ℝ), 2].getD i 0 = [(1 : ℝ), 2].getD i 0 ^ (1 : ℝ) := by
    intro i hi
    rw [Real.rpow_one]
  exact ⟨⟨by norm_num, rfl, hpos, hmono, hM⟩,
    logDeriv_recovers_exponent [(1 : ℝ), 2] [(1 : ℝ), 2] 1 1 (by norm_num) rfl
      hpos hmono hM 0 (by norm_num)⟩


/-- C10: `plot_moments` is only total when the group name ends in `Moments`
or `Histogram`: with neither suffix no branch assigns `ps` and `Mabs`, and
the operation fails with Python's unbound-variable error before any data is
plotted (the result is an error carrying no curves). -/
theorem plot_moments_needs_suffix (gname : String) (g : GroupData) (params : Params)
    (b : Bool) (h1 : pyEndsWith gname sMoments = false)
    (h2 : pyEndsWith gname sHistogramSuffix = false) :
    plot_moments gname g params b = Except.error sUnbound := by
  simp [plot_moments, loadMomentsFor, h1, h2]

/-- An empty group, used as a don't-care argument. -/
def gEmpty : GroupData := ⟨[], [], [], [], [], []⟩

/-- The name of a group ending in neither `Moments` nor `Histogram`. -/
def sOther : String := "PDF"

/-- Witness for C10 at the group name `PDF`. -/
theorem plot_moments_needs_suffix_witness :
    (pyEndsWith sOther sMoments = false ∧ pyEndsWith sOther sHistogramSuffix = false) ∧
      plot_moments sOther gEmpty paramsOne false = Except.error sUnbound :=
  ⟨⟨by decide, by decide⟩,
    plot_moments_needs_suffix sOther gEmpty paramsOne false (by decide) (by decide)⟩

/-- Helper: the `logdiff` branch of the exponent loop never writes to the
moment array. -/
theorem momLoop_logdiff_fst (kappa : ℝ) (rs rl : List ℝ) (ps : List ℚ) :
    ∀ (idxs : List ℕ) (T : List (List ℝ)),
      (momLoop kappa rs rl ps true idxs T).1 = T := by
  intro idxs
  induction idxs with
  | nil => intro T; rfl
  | cons i rest ih =>
    intro T
    simp only [momLoop, if_pos]
    exact ih T

/-- Helper: re-attaching the dropped tail recovers the list. -/
theorem dropLast_append_drop {α : Type} (L : List α) :
    L.dropLast ++ L.drop L.dropLast.length = L := by
  rw [List.length_dropLast, List.dropLast_eq_take, List.take_append_drop]

/-- C7 amended (preserved part): `plot_moments` with `logdiff = true` leaves
the loaded moment array unchanged — the final state of the array equals what
was loaded, for every group name (both moment sources) and parameters.
(The purely functional embeddings of `plot_pdf`, `load_moments` and
`moments_from_histogram` read their inputs and build fresh arrays, so only
`plot_moments`, whose loop contains the in-place `M[:] /= kappa**p`, can
mutate anything.) -/
theorem plot_moments_logdiff_no_mutation (gname : String) (g : GroupData)
    (params : Params) :
    (plot_moments gname g params true).map Prod.fst = loadedArray gname g := by
  unfold loadedArray
  cases hload : loadMomentsFor gname g with
  | error e => simp [plot_moments, hload, Except.map]
  | ok pm =>
    simp only [plot_moments, hload, Except.map]
    rw [momLoop_logdiff_fst]
    rw [dropLast_append_drop]

/-- C7 counterexample: `plot_moments` with `logdiff = false` on the `Moments`
entity `gC7` (all-ones moments, `kappa = 2`) does not leave the loaded moment
array unchanged: the in-place `M[:] /= kappa**p` halves entry `[0][1]`. -/
theorem plot_moments_mutates_cex :
    (plot_moments sMoments gC7 paramsC7 false).map Prod.fst ≠
      Except.ok (gC7.M_abs.map (fun row => row.map (fun q : ℚ => (q : ℝ)))) := by
  intro h
  have he : pyEndsWith sMoments sMoments = true := by decide
  have hload : loadMomentsFor sMoments gC7 =
      Except.ok ([1, 1], [[(1 : ℝ), 1], [1, 1]]) := by
    simp [loadMomentsFor, load_moments, he, gC7]
  have hrange : pyRange 1 2 2 = [1] := by simp [pyRange]
  have hls : gC7.loop_sizes = [1, 1] := rfl
  have hkappa : paramsC7.kappa = 2 := rfl
  have hnxi : paramsC7.nxi = 1 := rfl
  have hml : ∀ rs rl : List ℝ,
      (momLoop ((2 : ℚ) : ℝ) rs rl [(1 : ℚ), 1] false [1] [[(1 : ℝ), 1]]).1
        = [[(1 : ℝ), 1 / 2]] := by
    intro rs rl
    simp only [momLoop, Bool.false_eq_true, if_false, colApply, List.map_cons,
      List.map_nil, List.mapIdx_cons, List.mapIdx_nil, List.getD_cons_succ,
      List.getD_cons_zero]
    norm_num [Real.rpow_one]
  have hplot : (plot_moments sMoments gC7 paramsC7 false).map Prod.fst
      = Except.ok [[(1 : ℝ), 1 / 2], [1, 1]] := by
    simp only [plot_moments, hload, hls, hkappa, hnxi, Except.map, List.length_cons,
      List.length_nil, List.dropLast_cons₂, List.dropLast_single, hrange, hml,
      List.drop_succ_cons, List.drop_zero, List.singleton_append, List.cons_append,
      List.nil_append]
  rw [hplot] at h
  have hrhs : gC7.M_abs.map (fun row => row.map (fun q : ℚ => (q : ℝ)))
      = [[(1 : ℝ), 1], [1, 1]] := by
    simp [gC7]
  rw [hrhs] at h
  simp only [Except.ok.injEq, List.cons.injEq] at h
  norm_num at h


/-- Helper: shapes of the curves produced by the exponent loop.  With
`logdiff` each curve has `rs.length - 1` midpoints and a log-derivative of
that same length; without it each curve plots all of `rs` against a full
column of the (truncated) moment view `T`. -/
theorem momLoop_curve_shapes (kappa : ℝ) (rs rl : List ℝ) (ps : List ℚ) (b : Bool)
    (hrl : rl.length = rs.length) :
    ∀ (idxs : List ℕ) (T : List (List ℝ)), ∀ c ∈ (momLoop kappa rs rl ps b idxs T).2,
      (b = true → c.xs.length = rs.length - 1 ∧
        c.ys.length = min (T.length - 1) (rs.length - 1)) ∧
      (b = false → c.xs.length = rs.length ∧ c.ys.length = T.length) := by
  intro idxs
  induction idxs with
  | nil =>
    intro T c hc
    cases b <;> simp [momLoop] at hc
  | cons i rest ih =>
    intro T c hc
    cases b with
    | true =>
      simp only [momLoop, if_pos] at hc
      rcases List.mem_cons.mp hc with hceq | hmem
      · subst hceq
        refine ⟨fun _ => ⟨?_, ?_⟩, fun hfalse => absurd hfalse (by simp)⟩
        · simp
        · simp only [logDeriv, List.length_zipWith, List.length_map, List.length_drop,
            List.length_dropLast, hrl]
          omega
      · exact ih T c hmem
    | false =>
      simp only [momLoop, Bool.false_eq_true, if_false] at hc
      rcases List.mem_cons.mp hc with hceq | hmem
      · subst hceq
        refine ⟨fun htrue => absurd htrue (by simp), fun _ => ⟨rfl, by simp⟩⟩
      · have h2 := ih (T.map (colApply i (fun v => v / kappa ^ ((ps.getD i 0 : ℚ) : ℝ)))) c hmem
        simpa [List.length_map] using h2

/-- C9: `plot_moments` drops exactly the last row.  For a `Moments` input
with `Nr` loop sizes and `Nr` moment rows, the curves it plots do not depend
on the last loop size or the last moment row (replacing them leaves every
plotted curve unchanged), and each plotted curve has exactly `Nr - 1` points
when `logdiff = false` (respectively `Nr - 2` midpoints when
`logdiff = true`, the log-derivative of the `Nr - 1` retained rows). -/
theorem plot_moments_uses_first_rows (g : GroupData) (params : Params) (Nr : ℕ)
    (hL : g.loop_sizes.length = Nr) (hMr : g.M_abs.length = Nr) (hNr : 1 ≤ Nr)
    (a : ℚ) (arow : List ℚ) (b : Bool) :
    (plot_moments sMoments (replaceLastRow g a arow) params b).map Prod.snd =
        (plot_moments sMoments g params b).map Prod.snd ∧
      ∀ A cs, plot_moments sMoments g params b = Except.ok (A, cs) →
        ∀ c ∈ cs, c.xs.length = (if b then Nr - 1 - 1 else Nr - 1) ∧
          c.ys.length = (if b then Nr - 1 - 1 else Nr - 1) := by
  have he : pyEndsWith sMoments sMoments = true := by decide
  have hload1 : loadMomentsFor sMoments g =
      Except.ok (g.p_abs, g.M_abs.map (fun row => row.map (fun q : ℚ => (q : ℝ)))) := by
    simp [loadMomentsFor, load_moments, he]
  have hload2 : loadMomentsFor sMoments (replaceLastRow g a arow) =
      Except.ok (g.p_abs,
        (g.M_abs.dropLast ++ [arow]).map (fun row => row.map (fun q : ℚ => (q : ℝ)))) := by
    simp [loadMomentsFor, load_moments, he, replaceLastRow]
  constructor
  · simp only [plot_moments, hload1, hload2, Except.map]
    have hT : ((g.M_abs.dropLast ++ [arow]).map
          (fun row => row.map (fun q : ℚ => (q : ℝ)))).dropLast =
        (g.M_abs.map (fun row => row.map (fun q : ℚ => (q : ℝ)))).dropLast := by
      rw [List.map_append, List.map_cons, List.map_nil, List.dropLast_concat,
        List.map_dropLast]
    have hrs : (replaceLastRow g a arow).loop_sizes.dropLast = g.loop_sizes.dropLast := by
      simp [replaceLastRow, List.dropLast_concat]
    rw [hT, hrs]
  · intro A cs hok c hc
    simp only [plot_moments, hload1, Except.map, Except.ok.injEq, Prod.mk.injEq] at hok
    obtain ⟨hA, hcs⟩ := hok
    subst hcs
    have hrl : ((g.loop_sizes.dropLast.map
        (fun q : ℚ => (q : ℝ) / (params.nxi : ℝ))).map Real.log).length =
        (g.loop_sizes.dropLast.map (fun q : ℚ => (q : ℝ) / (params.nxi : ℝ))).length := by
      simp
    have hsh := momLoop_curve_shapes ((params.kappa : ℚ) : ℝ)
      (g.loop_sizes.dropLast.map (fun q : ℚ => (q : ℝ) / (params.nxi : ℝ)))
      ((g.loop_sizes.dropLast.map (fun q : ℚ => (q : ℝ) / (params.nxi : ℝ))).map Real.log)
      g.p_abs b hrl (pyRange 1 g.p_abs.length 2)
      ((g.M_abs.map (fun row => row.map (fun q : ℚ => (q : ℝ)))).dropLast) c hc
    have hrsl : (g.loop_sizes.dropLast.map
        (fun q : ℚ => (q : ℝ) / (params.nxi : ℝ))).length = Nr - 1 := by
      simp [hL]
    have hTl : ((g.M_abs.map (fun row => row.map (fun q : ℚ => (q : ℝ)))).dropLast).length =
        Nr - 1 := by
      simp [hMr]
    cases b with
    | true =>
      obtain ⟨hxs, hys⟩ := hsh.1 rfl
      rw [hrsl] at hxs
      rw [hTl, hrsl, min_self] at hys
      simpa using ⟨hxs, hys⟩
    | false =>
      obtain ⟨hxs, hys⟩ := hsh.2 rfl
      rw [hrsl] at hxs
      rw [hTl] at hys
      simpa using ⟨hxs, hys⟩

/-- Witness for C9 on `gC9` (two loop sizes, two moment rows), with the last
row replaced by junk values `5` and `[9, 9]`, for `logdiff = false`. -/
theorem plot_moments_uses_first_rows_witness :
    (gC9.loop_sizes.length = 2 ∧ gC9.M_abs.length = 2 ∧ (1 : ℕ) ≤ 2) ∧
      ((plot_moments sMoments (replaceLastRow gC9 5 [9, 9]) paramsOne false).map Prod.snd =
          (plot_moments sMoments gC9 paramsOne false).map Prod.snd ∧
        ∀ A cs, plot_moments sMoments gC9 paramsOne false = Except.ok (A, cs) →
          ∀ c ∈ cs, c.xs.length = (if false then 2 - 1 - 1 else 2 - 1) ∧
            c.ys.length = (if false then 2 - 1 - 1 else 2 - 1)) :=
  ⟨⟨rfl, rfl, by decide⟩,
    plot_moments_uses_first_rows gC9 paramsOne 2 rfl rfl (by decide) 5 [9, 9] false⟩


/-- Helper: bind on a successful `Except` computation. -/
theorem except_bind_ok {ε α β : Type} (a : α) (f : α → Except ε β) :
    (Except.ok a >>= f : Except ε β) = f a := rfl

/-- Helper: bind on a failed `Except` computation. -/
theorem except_bind_err {ε α β : Type} (e : ε) (f : α → Except ε β) :
    (Except.error e >>= f : Except ε β) = Except.error e := rfl

/-- Helper: `pyIndex` at an in-bounds index. -/
theorem pyIndex_ok {α : Type} (l : List α) (i : ℕ) (d : α) (h : i < l.length) :
    pyIndex l i = Except.ok (l.getD i d) := by
  unfold pyIndex
  rw [List.get?_eq_getElem?, List.getElem?_eq_getElem h, List.getD_eq_getElem?_getD,
    List.getElem?_eq_getElem h]
  rfl

/-- Helper: `range(1, Nr, 5)` starts with row 1 as soon as `Nr ≥ 2`. -/
theorem pyRange_two_le (Nr : ℕ) (h : 2 ≤ Nr) :
    ∃ rest, pyRange 1 Nr 5 = 1 :: rest := by
  unfold pyRange
  have hpos : 0 < (Nr - 1 + 5 - 1) / 5 := Nat.div_pos (by omega) (by norm_num)
  obtain ⟨m, hm⟩ := Nat.exists_eq_succ_of_ne_zero (Nat.pos_iff_ne_zero.mp hpos)
  rw [hm, List.range'_succ]
  exact ⟨_, rfl⟩

/-- Helper: the first processed row aborts with `AssertionError` (before its
curve and all later curves) when the moment is nonzero and the central bin
center is out of tolerance. -/
theorem plotPdfRows_assert_abort (g : GroupData) (rs x : List ℚ) (bs : ℚ)
    (moment : ℕ) (r : ℕ) (rest : List ℕ) (hm : moment ≠ 0)
    (hts : r < g.total_samples.length) (hh : r < g.hist.length)
    (hrow : (g.hist.getD r []).length = x.length)
    (hn : x.length / 2 < x.length)
    (hbad : ¬ |x.getD (x.length / 2) 0| < 1 / 10 ^ 8) :
    plotPdfRows g rs x bs moment (r :: rest) = Except.error (sAssertErr, []) := by
  have h1 := pyIndex_ok g.total_samples r 0 hts
  have h2 := pyIndex_ok g.hist r [] hh
  have hlen : (List.zipWith (fun p v => p * v ^ moment)
      (pdfRow (g.hist.getD r []) (g.total_samples.getD r 0) bs) x).length = x.length := by
    rw [List.length_zipWith]
    unfold pdfRow
    rw [List.length_map, hrow, Nat.min_self]
  have h3 := pyIndex_ok x (x.length / 2) 0 hn
  simp only [plotPdfRows, h1, h2, except_bind_ok, if_pos hm, hlen, h3, if_neg hbad,
    except_bind_err]

/-- C5 amended: an out-of-tolerance central bin center aborts the
computation with `AssertionError` before any curve is plotted, provided the
check is reached: `plot_pdf` (tolerance `1e-8` after kappa-normalization)
aborts whenever its moment is nonzero and there are at least two loop sizes
(so that the row loop `range(1, Nr, 5)` runs); `moments_from_histogram`
(tolerance `1e-10`, unnormalized centers) always aborts.  (With a single
loop size the row loop is empty and `plot_pdf` completes without reaching
the assertion — see the counterexample.) -/
theorem centering_assert_aborts :
    (∀ (g : GroupData) (params : Params) (moment : ℕ) (x : List ℚ),
      x = binCenters (g.bin_edges.map (fun q => q / params.kappa)) →
      moment ≠ 0 → 2 ≤ g.loop_sizes.length →
      1 < g.total_samples.length → 1 < g.hist.length →
      (g.hist.getD 1 []).length = x.length →
      x.length / 2 < x.length →
      ¬ |x.getD (x.length / 2) 0| < 1 / 10 ^ 8 →
      plot_pdf g params moment = Except.error (sAssertErr, [])) ∧
    (∀ g : GroupData,
      (binCenters g.bin_edges).length / 2 < (binCenters g.bin_edges).length →
      ¬ |(binCenters g.bin_edges).getD ((binCenters g.bin_edges).length / 2) 0| <
        1 / 10 ^ 10 →
      moments_from_histogram g = Except.error sAssertErr) := by
  constructor
  · intro g params moment x hx hm hNr hts hh hrow hn hbad
    subst hx
    have hxlen : 0 < (binCenters (g.bin_edges.map (fun q => q / params.kappa))).length := by
      omega
    have hblen : 2 ≤ (g.bin_edges.map (fun q => q / params.kappa)).length := by
      simp only [binCenters, List.length_zipWith, List.length_dropLast,
        List.length_drop] at hxlen
      omega
    have hb1e : ∃ b, (g.bin_edges.map (fun q => q / params.kappa)).get? 1 = some b := by
      rw [List.get?_eq_getElem?, List.getElem?_eq_getElem (by omega)]
      exact ⟨_, rfl⟩
    have hb0e : ∃ b, (g.bin_edges.map (fun q => q / params.kappa)).get? 0 = some b := by
      rw [List.get?_eq_getElem?, List.getElem?_eq_getElem (by omega)]
      exact ⟨_, rfl⟩
    obtain ⟨b1, hb1⟩ := hb1e
    obtain ⟨b0, hb0⟩ := hb0e
    have hNr' : 2 ≤ (g.loop_sizes.map (fun q => q / params.nxi)).length := by
      simp [hNr]
    obtain ⟨rest, hrest⟩ := pyRange_two_le _ hNr'
    simp only [plot_pdf, hb1, hb0, hrest]
    exact plotPdfRows_assert_abort g _ _ _ moment 1 rest hm hts hh hrow hn hbad
  · intro g hn hbad
    have hget : (binCenters g.bin_edges).get? ((binCenters g.bin_edges).length / 2) =
        some ((binCenters g.bin_edges).getD ((binCenters g.bin_edges).length / 2) 0) := by
      rw [List.get?_eq_getElem?, List.getElem?_eq_getElem hn, List.getD_eq_getElem?_getD,
        List.getElem?_eq_getElem hn]
      rfl
    simp only [moments_from_histogram, hget, if_neg hbad]

/-- Witness for C5 (amended): `gC5a` (two loop sizes, centers `[1/2, 3/2, 5/2]`)
aborts `plot_pdf` at moment 20, and `gC5bad` (same ill-centered bins) aborts
`moments_from_histogram`. -/
theorem centering_assert_aborts_witness :
    plot_pdf gC5a paramsOne 20 = Except.error (sAssertErr, []) ∧
      moments_from_histogram gC5bad = Except.error sAssertErr := by
  constructor
  · exact centering_assert_aborts.1 gC5a paramsOne 20 _ rfl (by decide) (by decide)
      (by decide) (by decide) (by decide) (by decide)
      (by
        have h32 : |(3 : ℚ) / 2| = 3 / 2 := abs_of_pos (by norm_num)
        norm_num [gC5a, paramsOne, binCenters, List.getD, h32])
  · exact centering_assert_aborts.2 gC5bad (by decide)
      (by
        have h32 : |(3 : ℚ) / 2| = 3 / 2 := abs_of_pos (by norm_num)
        norm_num [gC5bad, binCenters, List.getD, h32])

/-- C5 counterexample: `gC5bad` has a single loop size and a central bin
center (`3/2`) violating both stated tolerances, yet the run does not abort:
`plot_pdf` at the orchestrator's moment 20 returns successfully (plotting
nothing — its row loop `range(1, 1, 5)` is empty, so the assertion is never
reached), and with the default `MOMENTS_FROM_HISTOGRAM = false` the
1e-10-check of `moments_from_histogram` is never invoked either. -/
theorem centering_assert_cex :
    MOMENTS_FROM_HISTOGRAM = false ∧
      ¬ |(binCenters (gC5bad.bin_edges.map (fun q => q / paramsOne.kappa))).getD
          ((binCenters (gC5bad.bin_edges.map
            (fun q => q / paramsOne.kappa))).length / 2) 0| < 1 / 10 ^ 8 ∧
      ¬ |(binCenters gC5bad.bin_edges).getD
          ((binCenters gC5bad.bin_edges).length / 2) 0| < 1 / 10 ^ 10 ∧
      plot_pdf gC5bad paramsOne 20 = Except.ok [] := by
  refine ⟨rfl, ?_, ?_, ?_⟩
  · have h32 : |(3 : ℚ) / 2| = 3 / 2 := abs_of_pos (by norm_num)
    norm_num [gC5bad, paramsOne, binCenters, List.getD, h32]
  · have h32 : |(3 : ℚ) / 2| = 3 / 2 := abs_of_pos (by norm_num)
    norm_num [gC5bad, binCenters, List.getD, h32]
  · have hb1 : (gC5bad.bin_edges.map (fun q => q / paramsOne.kappa)).get? 1 =
        some (1 / paramsOne.kappa) := rfl
    have hb0 : (gC5bad.bin_edges.map (fun q => q / paramsOne.kappa)).get? 0 =
        some (0 / paramsOne.kappa) := rfl
    have hrange : pyRange 1 (gC5bad.loop_sizes.map
        (fun q => q / paramsOne.nxi)).length 5 = [] := by
      simp [pyRange, gC5bad]
    simp only [plot_pdf, hb1, hb0, hrange, plotPdfRows]

end PlotStats
